import Mathlib

/-!
# Verification of the geovaex core against its design specification

Shallow embedding of the geovaex repository's core components:

* `LazyObj` — the lazy transform pipeline (src/geovaex/lazy.py);
* `takeChunked` / `takeFlat` — the row-gather algorithm of
  `GeoSeries.take` / `LazyObj.take` (src/geovaex/geoseries.py,
  src/geovaex/lazy.py);
* `GeoSeries` — the windowed geometry view with `trim`,
  `set_active_range` and integer element access
  (src/geovaex/geoseries.py);
* `multiprocess` / `multithread` — the two worker-pool collection
  schemes (src/geovaex/geoseries.py `_multiprocess`,
  src/geovaex/operations/predicates.py and measurement.py
  `_multithread`), with the nondeterministic completion order of the
  pool made an explicit parameter;
* `totalBoundsFold` / `convexHullAll` — the recursive total-bounds and
  aggregate-convex-hull reductions (src/geovaex/funcs.py
  `total_bounds` and `convex_hull_all`, geoseries.py `total_bounds`
  and `convex_hull_all`);
* `constructive` — the string-keyed constructive-operation dispatch
  (src/geovaex/funcs.py);
* `sjoinM` — the spatial-join control flow (src/geovaex/sjoin.py):
  validation, the size-based side swap with predicate inversion, the
  `dwithin` distance requirement, the bulk query producing the
  row-correspondence pairs, and the caller-visible mutation effects.

Geometries, the pygeos predicates and the buffer operation are
abstract parameters: the design treats the geometry-algorithms
library as an external, already-correct collaborator.
-/

namespace Geovaex

/-! ## LazyPipeline (src/geovaex/lazy.py `LazyObj`)

A pipeline holds a base array `obj` and an ordered list of step
functions (`_function[i]` together with its stored `*args`/`**kwargs`
is modelled as one function `α → α`).  `copy` duplicates the step
lists, so `add` extends a fresh copy and leaves the receiver intact;
in this pure model `add` is therefore a functional update. -/

structure LazyObj (α : Type) where
  functions : List (α → α)
  obj : α

namespace LazyObj

/-- `LazyObj.init(cls, function, obj, *args, **kwargs)`. -/
def init (f : α → α) (obj : α) : LazyObj α :=
  { functions := [f], obj := obj }

/-- `LazyObj.add(self, function, *args, **kwargs)`: copy, then append
the step. -/
def add (lz : LazyObj α) (f : α → α) : LazyObj α :=
  { functions := lz.functions ++ [f], obj := lz.obj }

/-- `LazyObj.values(self)`: apply every step in order to the base
object. -/
def values (lz : LazyObj α) : α :=
  lz.functions.foldl (fun acc f => f acc) lz.obj

end LazyObj

/-! ## Row gather (`GeoSeries.take` chunked branch, `LazyObj.take`)

Both `GeoSeries.take` (src/geovaex/geoseries.py lines 175-188) and
`LazyObj.take` (src/geovaex/lazy.py lines 42-62) run the same
algorithm on a chunked array: walk the chunks in chunk order keeping a
running `offset`; for each chunk keep the requested indices that fall
inside the chunk, shift them by the offset and gather them from that
chunk; concatenate the per-chunk gathers; raise
`IndexError('ERROR: Out of range')` only when no chunk captured any
index. -/

/-- One step of the chunk loop: state is `(offset, collected chunks)`. -/
def takeChunkedStep (indices : List Nat) (st : Nat × List (List α)) (chunk : List α) :
    Nat × List (List α) :=
  let offset := st.1
  let size := chunk.length
  let chunkIndices :=
    (indices.filter (fun x => decide (offset ≤ x) && decide (x < size + offset))).map
      (fun x => x - offset)
  let acc := if chunkIndices.length > 0
    then st.2 ++ [chunkIndices.filterMap (fun i => chunk[i]?)]
    else st.2
  (offset + size, acc)

/-- The chunked-array branch of `take`. -/
def takeChunked (chunks : List (List α)) (indices : List Nat) :
    Except String (List α) :=
  let res := chunks.foldl (takeChunkedStep indices) (0, [])
  if res.2.length > 0 then .ok res.2.flatten else .error "ERROR: Out of range"

/-- The flat-array branch of `take`: `pa.Array.take` validates every
index against the array length and raises on any out-of-range index
(pyarrow is an external collaborator; this is its documented
behaviour). -/
def takeFlat (arr : List α) (indices : List Nat) : Except String (List α) :=
  if indices.all (fun i => decide (i < arr.length))
    then .ok (indices.filterMap (fun i => arr[i]?))
    else .error "ERROR: Index out of bounds"

/-- Whether an `Except` result is a success. -/
def exOk : Except String (List α) → Bool
  | .ok _ => true
  | .error _ => false

/-- Total number of rows of a chunked array. -/
def totalLen (chunks : List (List α)) : Nat :=
  (chunks.map List.length).sum

/-! ## GeometryView (src/geovaex/geoseries.py `GeoSeries`)

The view holds the backing geometry array, the active range
`_index_start`/`_index_end`, the cached lengths and the active
fraction, plus a reference to the host dataframe.  Of the host
dataframe only what the view reads is modelled: whether it currently
filters and the boolean selection mask it would supply
(`_df.filtered`, `_df.evaluate_selection_mask`). -/

/-- The host-dataframe state a `GeoSeries` consults. -/
structure DfRef where
  filtered : Bool
  mask : List Bool

/-- `GeoSeries.__init__` state.  Index fields are integers, as in
Python: nothing in the class keeps them non-negative or ordered. -/
structure GeoSeries (α : Type) where
  geometry : List α
  indexStart : Int
  indexEnd : Int
  lengthOriginal : Int
  lengthUnfiltered : Int
  activeFraction : ℚ
  df : Option DfRef

namespace GeoSeries

/-- Python slice `l[a:b]` (step 1): negative bounds count from the
end, bounds are clamped to `[0, len]`. -/
def pySlice (l : List α) (a b : Int) : List α :=
  let n : Int := l.length
  let norm := fun (i : Int) => (if i < 0 then max 0 (n + i) else min i n).toNat
  (l.drop (norm a)).take (norm b - norm a)

/-- Keep the elements of `l` whose mask entry is `true`
(`pyarrow.Array.filter`). -/
def applyMask (l : List α) (mask : List Bool) : List α :=
  ((l.zip mask).filter (fun p => p.2)).map (fun p => p.1)

/-- `GeoSeries.filtered`. -/
def filtered (gs : GeoSeries α) : Bool :=
  match gs.df with
  | none => false
  | some d => d.filtered

/-- `GeoSeries._active_geometry`: the raw backing array, passed
through the host's selection mask when the host filters.  Note that
the active range is *not* applied here. -/
def activeGeometry (gs : GeoSeries α) : List α :=
  match gs.df with
  | none => gs.geometry
  | some d => if d.filtered then applyMask gs.geometry d.mask else gs.geometry

/-- `GeoSeries.__getitem__` with an `int` argument:
`self._active_geometry[item:item+1]` decoded, `None` when the slice
is empty (Python raises `IndexError` on `piece[0]`). -/
def getItemInt (gs : GeoSeries α) (i : Nat) : Option α :=
  (activeGeometry gs)[i]?

/-- `GeoSeries.__len__` for the unfiltered case is
`self._length_unfiltered` (when filtered it delegates to the host). -/
def lenUnfiltered (gs : GeoSeries α) : Int :=
  gs.lengthUnfiltered

/-- `GeoSeries.trim` (non-inplace): slice the backing array to the
active range — skipped when the range already covers it — and reset
the range bookkeeping to the full new length.  The `_df` reference is
kept untouched (it was copied over by `GeoSeries.copy`). -/
def trim (gs : GeoSeries α) : GeoSeries α :=
  let g := if gs.indexStart = 0 ∧ (gs.geometry.length : Int) = gs.indexEnd
    then gs.geometry
    else pySlice gs.geometry gs.indexStart gs.indexEnd
  { geometry := g
    indexStart := 0
    indexEnd := gs.lengthUnfiltered
    lengthOriginal := gs.lengthUnfiltered
    lengthUnfiltered := gs.lengthUnfiltered
    activeFraction := 1
    df := gs.df }

/-- `GeoSeries.set_active_range(i1, i2)`: no validation whatsoever —
the fields are assigned unconditionally.  The only way it can fail is
the `ZeroDivisionError` of
`(i2 - i1) / float(self.length_original())` when the original length
is zero, modelled as `none`. -/
def setActiveRange (gs : GeoSeries α) (i1 i2 : Int) : Option (GeoSeries α) :=
  if gs.lengthOriginal = 0 then none
  else some { gs with
    activeFraction := ((i2 - i1 : Int) : ℚ) / ((gs.lengthOriginal : Int) : ℚ)
    indexStart := i1
    indexEnd := i2
    lengthUnfiltered := i2 - i1 }

/-- A view whose host does not filter it. -/
def Unfiltered (gs : GeoSeries α) : Prop :=
  gs.filtered = false

end GeoSeries

/-! ## ParallelReducer

`GeoSeries._multiprocess` (src/geovaex/geoseries.py lines 213-219)
submits one future per chunk in chunk order and then **appends**
results in `concurrent.futures.as_completed` order.  The pool's
nondeterministic completion order is made explicit as a list
`completion` of task indices (a permutation of the submission
indices).

`Predicates._multithread` / `Measurement._multithread`
(src/geovaex/operations/predicates.py lines 54-62, measurement.py
lines 27-35) pre-allocate `results = [False]*len(chunks)`, tag each
task with its chunk index and **assign** each result at its tag:
`results[thread_index] = result`. -/

/-- `GeoSeries._multiprocess`: results in completion order. -/
def multiprocess (f : List γ → β) (chunks : List (List γ)) (completion : List Nat) :
    List β :=
  completion.map (fun i => f (chunks.getD i []))

/-- `_multithread` of `Predicates`/`Measurement`: results keyed by the
originating chunk index, whatever the completion order.  `dflt` is the
`False` placeholder of `results = [False]*len(chunks)`. -/
def multithread (f : List γ → β) (dflt : β) (chunks : List (List γ))
    (completion : List Nat) : List β :=
  completion.foldl (fun res i => res.set i (f (chunks.getD i [])))
    (List.replicate chunks.length dflt)

/-! The total-bounds reduction (src/geovaex/funcs.py `total_bounds`,
src/geovaex/geoseries.py `total_bounds`): each chunk is reduced to its
bounding box (`pg.box(*pg.total_bounds(...))`), the per-chunk boxes
are collected (by `_multiprocess`, i.e. in completion order) into a
new array of box geometries, and the reduction recurses until a
single chunk remains.  Geometries are modelled by their bounding
boxes with integer coordinates. -/

/-- A bounding box `(xmin, ymin, xmax, ymax)`. -/
structure BBox where
  xmin : Int
  ymin : Int
  xmax : Int
  ymax : Int
deriving DecidableEq

/-- The bounding box enclosing two boxes: what `pg.total_bounds` does
pairwise (nan-aware min/max over the coordinate columns). -/
def boxUnion (a b : BBox) : BBox :=
  ⟨min a.xmin b.xmin, min a.ymin b.ymin, max a.xmax b.xmax, max a.ymax b.ymax⟩

/-- Accumulating form of `pg.total_bounds` over a geometry array:
`none` for the empty array. -/
def boxUnionAcc (acc : Option BBox) (b : BBox) : Option BBox :=
  match acc with
  | none => some b
  | some a => some (boxUnion a b)

/-- `pg.box(*pg.total_bounds(arr))` over a list of geometries (each
represented by its bounding box). -/
def totalBoundsFold (l : List BBox) : Option BBox :=
  l.foldl boxUnionAcc none

/-- The final answer of the recursive `GeoSeries.total_bounds`
reduction when the per-chunk boxes were collected in the order
`completion`: the bound of the collected per-chunk bounds. -/
def totalBoundsParallel (chunks : List (List BBox)) (completion : List Nat) :
    Option BBox :=
  totalBoundsFold (multiprocess (fun c => (totalBoundsFold c).getD ⟨0, 0, 0, 0⟩)
    chunks completion)

/-- The chunk-sequential (partition-order) reference result. -/
def totalBoundsSequential (chunks : List (List BBox)) : Option BBox :=
  totalBoundsFold (chunks.map (fun c => (totalBoundsFold c).getD ⟨0, 0, 0, 0⟩))

/-! The aggregate-convex-hull reduction (src/geovaex/funcs.py
`convex_hull_all`, src/geovaex/geoseries.py `convex_hull_all`): each
chunk is reduced to the convex hull of the union of the unique points
of its geometries —
`pg.to_wkb(pg.convex_hull(pg.union_all(pg.extract_unique_points(pg.from_wkb(arr)))))`
— the per-chunk hulls are collected by `_multiprocess` (so in
completion order) into a new array of hull geometries, and the
reduction recurses with the same operation until one chunk remains.
A geometry is modelled by its set of unique points (what
`pg.extract_unique_points` yields); `pg.union_all` over point sets is
set union; `pg.convex_hull` is an abstract function `hull` on point
sets, supplied by the external pygeos collaborator. -/

/-- `convex_hull_all(arr)` over one chunk: hull of the union of the
geometries' unique points. -/
def convexHullAll {P : Type} [DecidableEq P] (hull : Finset P → Finset P)
    (chunk : List (Finset P)) : Finset P :=
  hull (chunk.foldl (fun s t => s ∪ t) ∅)

/-- The final answer of the recursive `GeoSeries.convex_hull_all`
collapse when the per-chunk hulls were collected in the order
`completion`: the hull over the collected per-chunk hulls. -/
def convexHullAllParallel {P : Type} [DecidableEq P]
    (hull : Finset P → Finset P) (chunks : List (List (Finset P)))
    (completion : List Nat) : Finset P :=
  convexHullAll hull (multiprocess (convexHullAll hull) chunks completion)

/-- The chunk-sequential (partition-order) reference result of the
aggregate-convex-hull reduction. -/
def convexHullAllSequential {P : Type} [DecidableEq P]
    (hull : Finset P → Finset P) (chunks : List (List (Finset P))) : Finset P :=
  convexHullAll hull (chunks.map (convexHullAll hull))

/-! ## Constructive-operation dispatch (src/geovaex/funcs.py `constructive`)

A chain of string comparisons selects the pygeos operation; the final
`else` branch emits `warnings.warn(...)` and returns `None` — it does
not raise.  The individual pygeos operations are external; they are
abstracted into one name-indexed family `pgOp`. -/

/-- The outcome of `constructive`: either the re-encoded geometry
array, or the `warnings.warn` + `return None` fallback. -/
inductive ConstructiveResult (α : Type) where
  | ok (value : α)
  | warnedNone
deriving DecidableEq

/-- The names accepted by the `if`/`elif` chain of `constructive`. -/
def constructiveNames : List String :=
  ["boundary", "buffer", "build_area", "centroid", "clip_by_rect",
   "convex_hull", "delaunay_triangles", "envelope", "extract_unique_points",
   "make_valid", "normalize", "offset_curve", "point_on_surface", "reverse",
   "simplify", "snap", "voronoi_polygons"]

/-- `constructive(arr, operation, *args, **kwargs)`. -/
def constructive (pgOp : String → α → α) (arr : α) (operation : String) :
    ConstructiveResult α :=
  if operation = "boundary" then .ok (pgOp "boundary" arr)
  else if operation = "buffer" then .ok (pgOp "buffer" arr)
  else if operation = "build_area" then .ok (pgOp "build_area" arr)
  else if operation = "centroid" then .ok (pgOp "centroid" arr)
  else if operation = "clip_by_rect" then .ok (pgOp "clip_by_rect" arr)
  else if operation = "convex_hull" then .ok (pgOp "convex_hull" arr)
  else if operation = "delaunay_triangles" then .ok (pgOp "delaunay_triangles" arr)
  else if operation = "envelope" then .ok (pgOp "envelope" arr)
  else if operation = "extract_unique_points" then .ok (pgOp "extract_unique_points" arr)
  else if operation = "make_valid" then .ok (pgOp "make_valid" arr)
  else if operation = "normalize" then .ok (pgOp "normalize" arr)
  else if operation = "offset_curve" then .ok (pgOp "offset_curve" arr)
  else if operation = "point_on_surface" then .ok (pgOp "point_on_surface" arr)
  else if operation = "reverse" then .ok (pgOp "reverse" arr)
  else if operation = "simplify" then .ok (pgOp "simplify" arr)
  else if operation = "snap" then .ok (pgOp "snap" arr)
  else if operation = "voronoi_polygons" then .ok (pgOp "voronoi_polygons" arr)
  else .warnedNone

/-! ## SpatialJoinEngine (src/geovaex/sjoin.py `sjoin`)

The join is modelled down to the row-correspondence pairs handed to
the host dataframe's `join` primitive; the column-combining join and
`drop` act on fresh frames and are the host collaborator's job.
Geometries `G`, the predicates `contains`/`intersects` and `buffer`
are abstract; `pg.within(a, b)` is `pg.contains(b, a)` (pygeos
semantics of the inverse predicate).

Caller-visible effects are tracked explicitly: `left = left.copy()`
detaches the left argument before anything touches it, and
`right = right.extract()` rebinds the local name to a fresh frame —
but when the sides are swapped (`len(left) < len(right)`) the local
`left` is the *caller's* right frame, and
`left.add_column("join_id", ...)` mutates it. -/

/-- The slice of a GeoDataFrame the join reads and mutates. -/
structure Frame (G : Type) where
  geom : List G
  cols : List String

/-- What a call to `sjoin` produces: the outcome (the correspondence
pairs `(left row, right row)` in original orientation, or the raised
`ValueError`), whether the STRtree index was built, and the states of
the caller's two argument frames after the call. -/
structure SjoinState (G : Type) where
  outcome : Except String (List (Nat × Nat))
  indexBuilt : Bool
  finalLeft : Frame G
  finalRight : Frame G

/-- `allowed_ops` of src/geovaex/sjoin.py. -/
def allowedOps : List String := ["contains", "within", "intersects", "dwithin"]

/-- `allowed_hows` of src/geovaex/sjoin.py. -/
def allowedHows : List String := ["left", "right", "inner"]

/-- The predicate inversion applied when the sides are swapped
(src/geovaex/sjoin.py lines 46-51): look `op` up in
`allowed_ops[0:2]` and replace it by `allowed_ops[0:2][(1-index)%2]`;
a `ValueError` from `.index` leaves `op` unchanged. -/
def swapOp (op : String) : String :=
  match (allowedOps.take 2).indexOf? op with
  | some i => ((allowedOps.take 2).getD ((1 - i) % 2) op)
  | none => op

/-- Evaluation of a named predicate on a (probe, indexed) geometry
pair, as `pg.STRtree.query_bulk(..., predicate=op)` evaluates it:
`within(a, b)` holds exactly when `contains(b, a)` does. -/
def predEval (contains intersects : G → G → Bool) (op : String) (a b : G) : Bool :=
  if op = "contains" then contains a b
  else if op = "within" then contains b a
  else if op = "intersects" then intersects a b
  else false

/-- Whether the predicate holds between probe `l` and indexed
geometry `r` (false out of range). -/
def pairPred (pred : G → G → Bool) (probes idxSide : List G) (l r : Nat) : Bool :=
  match probes[l]?, idxSide[r]? with
  | some a, some b => pred a b
  | _, _ => false

/-- `tree_idx.query_bulk(left.geometry, predicate=op)`: all pairs
`(l, r)` with the predicate holding between probe `l` and indexed
geometry `r`, in probe-major order. -/
def queryBulk (pred : G → G → Bool) (probes idxSide : List G) : List (Nat × Nat) :=
  (List.range probes.length).flatMap (fun l =>
    ((List.range idxSide.length).filter (fun r => pairPred pred probes idxSide l r)).map
      (fun r => (l, r)))

/-- `sjoin(left, right, how, op, distance)` down to the
correspondence pairs.  Control flow follows src/geovaex/sjoin.py:
validate `op` then `how`; copy `left`; swap the sides when the left
has fewer rows, inverting `contains`/`within`; extract the (local)
right side; for `dwithin` require a distance, buffer the indexed side
and continue as `intersects`; build the tree and bulk-query; restore
the original orientation; the temporary `join_id` column attached at
line 73 lands on the caller's right frame exactly when the sides were
swapped, because then the local `left` was never copied. -/
def sjoinM (contains intersects : G → G → Bool) (bufferD : Int → G → G)
    (left0 right0 : Frame G) (how op : String) (distance : Option Int) :
    SjoinState G :=
  if op ∉ allowedOps then
    ⟨.error ("`op` \x22" ++ op ++ "\x22 not supported"), false, left0, right0⟩
  else if how ∉ allowedHows then
    ⟨.error ("`how` \x22" ++ how ++ "\x22 not supported"), false, left0, right0⟩
  else
    let swapped := left0.geom.length < right0.geom.length
    let op1 := if swapped then swapOp op else op
    let probeGeom := if swapped then right0.geom else left0.geom
    let idxGeom0 := if swapped then left0.geom else right0.geom
    let finalRight := if swapped then
        { right0 with cols := right0.cols ++ ["join_id"] } else right0
    if op1 = "dwithin" then
      match distance with
      | none =>
        ⟨.error "'distance' is required for operation 'dwithin'", false, left0, right0⟩
      | some d =>
        let idxGeom := idxGeom0.map (bufferD d)
        let pairs := queryBulk (predEval contains intersects "intersects")
          probeGeom idxGeom
        let corr := if swapped then pairs.map (fun p => (p.2, p.1)) else pairs
        ⟨.ok corr, true, left0, finalRight⟩
    else
      let pairs := queryBulk (predEval contains intersects op1) probeGeom idxGeom0
      let corr := if swapped then pairs.map (fun p => (p.2, p.1)) else pairs
      ⟨.ok corr, true, left0, finalRight⟩

/-- The correspondence pairs of a successful join (empty on error). -/
def sjoinPairs (st : SjoinState G) : List (Nat × Nat) :=
  match st.outcome with
  | .ok ps => ps
  | .error _ => []

end Geovaex


namespace Geovaex

/-! ## Theorems -/

/-- C8: for every base array, initial step `h` and pure step functions
`f` and `g`, extending the pipeline and materializing composes —
`pipeline.add(f).add(g).values() = g(f(h(base)))` — and `add` is a
functional update: the extended pipeline keeps the receiver's base
object and has exactly the receiver's step list with the new step
appended, so the receiver itself (and its materialization) is
untouched. -/
theorem lazy_add_compose_values (h f g : α → α) (base : α) (lz : LazyObj α) :
    (((LazyObj.init h base).add f).add g).values = g (f (h base)) ∧
    (lz.add f).obj = lz.obj ∧
    (lz.add f).functions = lz.functions ++ [f] ∧
    ((lz.add f).add g).values = g (f lz.values) := by
  refine ⟨?_, rfl, rfl, ?_⟩
  · simp [LazyObj.init, LazyObj.add, LazyObj.values]
  · simp [LazyObj.add, LazyObj.values, List.foldl_append]

/-- C1: evaluation of the chunked `take` at the failing input.  With
the backing store chunked as `[[10, 11], [12, 13]]`, `take([2, 0])`
returns `[10, 12]` — the gathered rows come out grouped by chunk in
chunk order, not in the requested index order `[12, 10]` that the
claim (and the join machinery that attaches `join_id` in requested
order) requires. -/
theorem take_chunked_gathers_in_chunk_order :
    takeChunked [[10, 11], [12, 13]] [2, 0] = .ok [10, 12] ∧
    ([10, 12] : List Nat) ≠ [12, 10] := by
  exact ⟨rfl, by decide⟩

/-- A chunk step leaves the accumulator non-empty exactly when it was
already non-empty or some requested index falls inside this chunk's
offset range. -/
lemma takeChunkedStep_snd_ne (indices : List Nat) (off : Nat)
    (acc : List (List α)) (c : List α) :
    (takeChunkedStep indices (off, acc) c).2 ≠ [] ↔
      acc ≠ [] ∨ ∃ i ∈ indices, off ≤ i ∧ i < c.length + off := by
  simp only [takeChunkedStep]
  by_cases hcond :
      ((indices.filter (fun x => decide (off ≤ x) && decide (x < c.length + off))).map
        (fun x => x - off)).length > 0
  · simp only [if_pos hcond]
    constructor
    · intro _
      right
      simp only [List.length_map, List.length_pos, ne_eq,
        List.filter_eq_nil_iff, not_forall] at hcond
      obtain ⟨i, hi, hp⟩ := hcond
      refine ⟨i, hi, ?_⟩
      simpa using of_not_not hp
    · intro _
      simp
  · simp only [if_neg hcond]
    have : ¬ ∃ i ∈ indices, off ≤ i ∧ i < c.length + off := by
      intro ⟨i, hi, h1, h2⟩
      apply hcond
      simp only [List.length_map, List.length_pos, ne_eq, List.filter_eq_nil_iff,
        not_forall]
      exact ⟨i, hi, by simp [h1, h2]⟩
    constructor
    · exact fun h => Or.inl h
    · rintro (h | hex)
      · exact h
      · exact absurd hex this

/-- Folding the chunk loop from an arbitrary offset and accumulator:
the collected list is non-empty exactly when the accumulator already
was, or some requested index lands in the remaining chunks' combined
range. -/
lemma takeChunked_fold_ne (indices : List Nat) :
    ∀ (chunks : List (List α)) (off : Nat) (acc : List (List α)),
      (chunks.foldl (takeChunkedStep indices) (off, acc)).2 ≠ [] ↔
        acc ≠ [] ∨ ∃ i ∈ indices, off ≤ i ∧ i < off + totalLen chunks := by
  intro chunks
  induction chunks with
  | nil =>
    intro off acc
    simp only [List.foldl_nil, totalLen, List.map_nil, List.sum_nil, Nat.add_zero]
    constructor
    · exact fun h => Or.inl h
    · rintro (h | ⟨i, _, h1, h2⟩)
      · exact h
      · omega
  | cons c cs ih =>
    intro off acc
    rw [List.foldl_cons]
    have hstep : takeChunkedStep indices (off, acc) c =
        ((off + c.length, (takeChunkedStep indices (off, acc) c).2)) := by
      simp [takeChunkedStep]
    rw [hstep, ih]
    rw [takeChunkedStep_snd_ne]
    have htot : totalLen (c :: cs) = c.length + totalLen cs := by
      simp [totalLen]
    rw [htot]
    constructor
    · rintro ((h | ⟨i, hi, h1, h2⟩) | ⟨i, hi, h1, h2⟩)
      · exact Or.inl h
      · exact Or.inr ⟨i, hi, by omega⟩
      · exact Or.inr ⟨i, hi, by omega⟩
    · rintro (h | ⟨i, hi, h1, h2⟩)
      · exact Or.inl (Or.inl h)
      · by_cases hc : i < c.length + off
        · exact Or.inl (Or.inr ⟨i, hi, h1, hc⟩)
        · exact Or.inr ⟨i, hi, by omega⟩

/-- C7 (amended): fate of `take` with out-of-range indices.  The
chunked branch succeeds exactly when at least one requested index is
in range — out-of-range indices are silently dropped, and the
`IndexError('ERROR: Out of range')` is raised only when *every*
requested index is out of range (in particular also for an empty index
list).  The flat-array branch (`pa.Array.take`) succeeds exactly when
every requested index is in range, i.e. it does fail on any
out-of-range index. -/
theorem take_error_conditions (chunks : List (List α)) (indices : List Nat)
    (arr : List α) :
    (exOk (takeChunked chunks indices) = true ↔
      ∃ i ∈ indices, i < totalLen chunks) ∧
    (exOk (takeFlat arr indices) = true ↔ ∀ i ∈ indices, i < arr.length) := by
  constructor
  · unfold takeChunked
    by_cases h : (chunks.foldl (takeChunkedStep indices) (0, [])).2.length > 0
    · simp only [if_pos h, exOk, true_iff]
      have h' := (takeChunked_fold_ne indices chunks 0 []).mp
        (by simpa [List.length_pos] using h)
      rcases h' with h' | ⟨i, hi, _, h2⟩
      · simp at h'
      · exact ⟨i, hi, by simpa using h2⟩
    · simp only [if_neg h, exOk, Bool.false_eq_true, false_iff]
      intro hex
      obtain ⟨i, hi, hlt⟩ := hex
      apply h
      rw [gt_iff_lt, List.length_pos, takeChunked_fold_ne]
      exact Or.inr ⟨i, hi, by omega⟩
  · unfold takeFlat
    by_cases h : indices.all (fun i => decide (i < arr.length))
    · simp only [if_pos h, exOk, true_iff]
      intro i hi
      simpa using (List.all_eq_true.mp h) i hi
    · simp only [if_neg h, exOk, Bool.false_eq_true, false_iff]
      intro hall
      apply h
      rw [List.all_eq_true]
      intro i hi
      simpa using hall i hi

/-- Folding the `results[thread_index] = result` writes of
`_multithread` over any completion order: position `j` holds the
`j`-th chunk's result once `j` occurred in the completion list, and is
otherwise untouched. -/
lemma multithread_fold_getElem? (f : List γ → β) (chunks : List (List γ)) :
    ∀ (l : List Nat) (acc : List β), acc.length = chunks.length →
      (∀ i ∈ l, i < chunks.length) → ∀ j : Nat,
      (l.foldl (fun res i => res.set i (f (chunks.getD i []))) acc)[j]? =
        if j ∈ l then some (f (chunks.getD j [])) else acc[j]? := by
  intro l
  induction l with
  | nil => intro acc _ _ j; simp
  | cons a l ih =>
    intro acc hlen hbound j
    rw [List.foldl_cons]
    rw [ih (acc.set a (f (chunks.getD a []))) (by simp [hlen])
      (fun i hi => hbound i (List.mem_cons_of_mem a hi)) j]
    by_cases hjl : j ∈ l
    · simp [hjl]
    · by_cases hja : j = a
      · subst hja
        have hjlt : j < acc.length := hlen ▸ hbound j (List.mem_cons_self j l)
        rw [if_neg hjl, if_pos (List.mem_cons_self j l)]
        exact List.getElem?_set_eq_of_lt _ hjlt
      · rw [if_neg hjl, if_neg (by simp [hja, hjl])]
        exact List.getElem?_set_ne (fun h => hja h.symm)

/-- `boxUnion` is commutative. -/
lemma boxUnion_comm (a b : BBox) : boxUnion a b = boxUnion b a := by
  simp [boxUnion, min_comm, max_comm]

/-- `boxUnion` is associative. -/
lemma boxUnion_assoc (a b c : BBox) :
    boxUnion (boxUnion a b) c = boxUnion a (boxUnion b c) := by
  simp [boxUnion, min_assoc, max_assoc]

/-- The accumulator step of the total-bounds fold is
right-commutative, so the fold is invariant under permutation of the
geometry list. -/
instance : RightCommutative boxUnionAcc :=
  ⟨fun acc a b => by
    cases acc with
    | none => simp [boxUnionAcc, boxUnion_comm]
    | some c =>
      simp only [boxUnionAcc, Option.some.injEq]
      rw [boxUnion_assoc, boxUnion_assoc, boxUnion_comm a b]⟩

/-- The total-bounds fold only depends on the multiset of
geometries. -/
lemma totalBoundsFold_perm {l₁ l₂ : List BBox} (h : l₁.Perm l₂) :
    totalBoundsFold l₁ = totalBoundsFold l₂ :=
  h.foldl_eq none

/-- Mapping a per-chunk operation over the chunk indices in submission
order reproduces the partition-order per-chunk results. -/
lemma multiprocess_range (f : List γ → β) (chunks : List (List γ)) :
    multiprocess f chunks (List.range chunks.length) = chunks.map f := by
  apply List.ext_getElem?
  intro j
  simp only [multiprocess, List.getElem?_map]
  by_cases hj : j < chunks.length
  · rw [List.getElem?_range hj, List.getElem?_eq_getElem hj]
    simp only [Option.map_some']
    rw [List.getD_eq_getElem?_getD, List.getElem?_eq_getElem hj]
    simp
  · rw [List.getElem?_eq_none (by simpa using hj),
      List.getElem?_eq_none (by omega)]
    simp

/-- Folding set union over a point-set list only depends on the
multiset of sets. -/
lemma unionFold_perm {P : Type} [DecidableEq P] {l₁ l₂ : List (Finset P)}
    (h : l₁.Perm l₂) :
    l₁.foldl (fun s t => s ∪ t) ∅ = l₂.foldl (fun s t => s ∪ t) ∅ := by
  haveI : RightCommutative (fun (s t : Finset P) => s ∪ t) :=
    ⟨fun b a₁ a₂ => by
      rw [Finset.union_assoc, Finset.union_assoc, Finset.union_comm a₁ a₂]⟩
  exact h.foldl_eq ∅

/-- C2 (amended): determinism of the two collection schemes.  The
thread-pool `_multithread` stores every result at its originating
chunk index, so for every completion order (any permutation of the
task indices) its output equals the chunk-sequential map — it is
independent of completion order and worker count.  The process-pool
`_multiprocess` appends in completion order, so its *list* of
per-chunk results is completion-ordered; but the two reductions built
on it — `total_bounds` and `convex_hull_all` — are invariant under
permutation of that list, so their final reduced answers still equal
the chunk-sequential ones. -/
theorem parallel_collection_determinism {P : Type} [DecidableEq P]
    (f : List γ → β) (dflt : β)
    (chunks : List (List γ)) (completion : List Nat)
    (hperm : completion.Perm (List.range chunks.length))
    (boxchunks : List (List BBox)) (completion2 : List Nat)
    (hperm2 : completion2.Perm (List.range boxchunks.length))
    (hull : Finset P → Finset P) (hullchunks : List (List (Finset P)))
    (completion3 : List Nat)
    (hperm3 : completion3.Perm (List.range hullchunks.length)) :
    multithread f dflt chunks completion = chunks.map f ∧
    totalBoundsParallel boxchunks completion2 =
      totalBoundsSequential boxchunks ∧
    convexHullAllParallel hull hullchunks completion3 =
      convexHullAllSequential hull hullchunks := by
  refine ⟨?_, ?_, ?_⟩
  · apply List.ext_getElem?
    intro j
    rw [multithread, multithread_fold_getElem? f chunks completion
      (List.replicate chunks.length dflt) (by simp)
      (fun i hi => by simpa using hperm.mem_iff.mp hi) j]
    by_cases hj : j < chunks.length
    · have hjmem : j ∈ completion := hperm.mem_iff.mpr (by simpa using hj)
      rw [if_pos hjmem, List.getElem?_map, List.getElem?_eq_getElem hj]
      rw [List.getD_eq_getElem?_getD, List.getElem?_eq_getElem hj]
      simp
    · have hjmem : j ∉ completion := fun h => hj (by simpa using hperm.mem_iff.mp h)
      rw [if_neg hjmem, List.getElem?_eq_none (by simpa using hj),
        List.getElem?_eq_none (by simp; omega)]
  · have key : (multiprocess (fun c => (totalBoundsFold c).getD ⟨0, 0, 0, 0⟩)
        boxchunks completion2).Perm
        (boxchunks.map (fun c => (totalBoundsFold c).getD ⟨0, 0, 0, 0⟩)) := by
      rw [← multiprocess_range (fun c => (totalBoundsFold c).getD ⟨0, 0, 0, 0⟩) boxchunks]
      exact hperm2.map _
    unfold totalBoundsParallel totalBoundsSequential
    exact totalBoundsFold_perm key
  · have key : (multiprocess (convexHullAll hull) hullchunks completion3).Perm
        (hullchunks.map (convexHullAll hull)) := by
      rw [← multiprocess_range (convexHullAll hull) hullchunks]
      exact hperm3.map _
    exact congrArg hull (unionFold_perm key)

/-- C2 counterexample: the claim fails for the process-pool collection
itself.  `[1, 0]` is a legitimate completion order for two submitted
chunk tasks, and `_multiprocess` then returns the per-chunk results
`[2, 1]` instead of the chunk-sequential `[1, 2]`: its concatenated
output depends on completion order. -/
theorem multiprocess_depends_on_completion_order :
    ([1, 0] : List Nat).Perm (List.range 2) ∧
    multiprocess (fun c => c.length) [[0], [1, 2]] [1, 0] ≠
      [[0], [1, 2]].map (fun c => c.length) := by
  decide

/-- C7 counterexample: `take([0, 5])` over the single-chunk store
`[[10, 11]]` contains the out-of-range index `5`, yet it does not
fail: the out-of-range index is silently dropped and the gather
succeeds with `[10]`, contradicting the claim that any out-of-range
index raises `IndexOutOfRange`. -/
theorem take_ignores_partial_out_of_range :
    takeChunked [[10, 11]] [0, 5] = .ok [10] := by
  rfl


/-! ### Spatial-join lemmas -/

/-- `pairPred` holds exactly when both positions are occupied and the
predicate holds. -/
lemma pairPred_iff {G : Type} {pred : G → G → Bool} {probes idxSide : List G}
    {l r : Nat} :
    pairPred pred probes idxSide l r = true ↔
      ∃ a b, probes[l]? = some a ∧ idxSide[r]? = some b ∧ pred a b = true := by
  cases hpa : probes[l]? with
  | none => simp [pairPred, hpa]
  | some a =>
    cases hpb : idxSide[r]? with
    | none => simp [pairPred, hpa, hpb]
    | some b => simp [pairPred, hpa, hpb]

/-- `pg.STRtree.query_bulk` membership: `(l, r)` is reported exactly
when both indices are in range and the predicate holds on the two
geometries. -/
lemma mem_queryBulk {G : Type} {pred : G → G → Bool} {probes idxSide : List G}
    {l r : Nat} :
    (l, r) ∈ queryBulk pred probes idxSide ↔
      ∃ a b, probes[l]? = some a ∧ idxSide[r]? = some b ∧ pred a b = true := by
  unfold queryBulk
  simp only [List.mem_flatMap, List.mem_map, List.mem_filter, List.mem_range]
  constructor
  · rintro ⟨x, hx, y, ⟨hy, hpp⟩, heq⟩
    simp only [Prod.mk.injEq] at heq
    obtain ⟨rfl, rfl⟩ := heq
    exact pairPred_iff.mp hpp
  · intro hex
    have hpp := pairPred_iff.mpr hex
    obtain ⟨a, b, ha, hb, hp⟩ := hex
    exact ⟨l, (List.getElem?_eq_some.mp ha).1, r,
      ⟨(List.getElem?_eq_some.mp hb).1, hpp⟩, rfl⟩

/-- `swapOp` on "contains". -/
lemma swapOp_contains : swapOp "contains" = "within" := by rfl

/-- `swapOp` on "within". -/
lemma swapOp_within : swapOp "within" = "contains" := by rfl

/-- `swapOp` on "dwithin". -/
lemma swapOp_dwithin : swapOp "dwithin" = "dwithin" := by rfl

/-- `swapOp` fixes every name outside the asymmetric pair. -/
lemma swapOp_eq_self (op : String) (h1 : op ≠ "contains") (h2 : op ≠ "within") :
    swapOp op = op := by
  unfold swapOp allowedOps
  simp [List.indexOf?, List.findIdx?_cons, beq_iff_eq, Ne.symm h1, Ne.symm h2]

/-- `swapOp` never turns another predicate into "dwithin". -/
lemma swapOp_ne_dwithin (op : String) (h : op ≠ "dwithin") :
    swapOp op ≠ "dwithin" := by
  by_cases h1 : op = "contains"
  · subst h1; rw [swapOp_contains]; decide
  by_cases h2 : op = "within"
  · subst h2; rw [swapOp_within]; decide
  rw [swapOp_eq_self op h1 h2]
  exact h

/-- `predEval` on "contains". -/
lemma predEval_contains_eval {G : Type} (c i : G → G → Bool) (x y : G) :
    predEval c i "contains" x y = c x y := by rfl

/-- `predEval` on "within" is the inverse containment. -/
lemma predEval_within_eval {G : Type} (c i : G → G → Bool) (x y : G) :
    predEval c i "within" x y = c y x := by rfl

/-- Reduction of `sjoinPairs` on a successful state. -/
lemma sjoinPairs_ok {G : Type} (ps : List (Nat × Nat)) (ib : Bool) (fl fr : Frame G) :
    sjoinPairs ⟨Except.ok ps, ib, fl, fr⟩ = ps := rfl

/-- Evaluation of `sjoinM` on a valid, non-"dwithin" request: the two
branches of the swap heuristic. -/
lemma sjoinM_eq_of_valid {G : Type} (c i : G → G → Bool) (buf : Int → G → G)
    (L R : Frame G) (how op : String) (d : Option Int)
    (hopAll : op ∈ allowedOps) (hnd : op ≠ "dwithin") (hhow : how ∈ allowedHows) :
    sjoinM c i buf L R how op d =
      if L.geom.length < R.geom.length then
        ⟨.ok ((queryBulk (predEval c i (swapOp op)) R.geom L.geom).map
            (fun p => (p.2, p.1))),
          true, L, { R with cols := R.cols ++ ["join_id"] }⟩
      else
        ⟨.ok (queryBulk (predEval c i op) L.geom R.geom), true, L, R⟩ := by
  unfold sjoinM
  rw [if_neg (not_not.mpr hopAll), if_neg (not_not.mpr hhow)]
  by_cases hsw : L.geom.length < R.geom.length
  · have h1 : swapOp op ≠ "dwithin" := swapOp_ne_dwithin op hnd
    simp [hsw, h1]
  · simp [hsw, hnd]

/-- Characterization of the correspondence pairs produced by `sjoinM`
for the asymmetric predicates: whatever side the swap heuristic
indexes, `(a, b)` is reported exactly when the predicate holds between
left row `a` and right row `b` in the original orientation. -/
lemma sjoinM_pairs_mem {G : Type} (contains intersects : G → G → Bool)
    (bufferD : Int → G → G) (L R : Frame G) (how op : String) (d : Option Int)
    (hop : op = "contains" ∨ op = "within") (hhow : how ∈ allowedHows) (a b : Nat) :
    ((a, b) ∈ sjoinPairs (sjoinM contains intersects bufferD L R how op d) ↔
      ∃ x y, L.geom[a]? = some x ∧ R.geom[b]? = some y ∧
        predEval contains intersects op x y = true) := by
  have hopAll : op ∈ allowedOps := by
    rcases hop with h | h <;> subst h <;> decide
  have hnd : op ≠ "dwithin" := by
    rcases hop with h | h <;> subst h <;> decide
  rw [sjoinM_eq_of_valid contains intersects bufferD L R how op d hopAll hnd hhow]
  by_cases hsw : L.geom.length < R.geom.length
  · rw [if_pos hsw, sjoinPairs_ok, List.mem_map]
    have hmem : ∀ p : Nat × Nat, ((p.2, p.1) = (a, b)) ↔ p = (b, a) := by
      rintro ⟨p1, p2⟩
      simp only [Prod.mk.injEq]
      constructor
      · rintro ⟨h1, h2⟩; exact ⟨h2, h1⟩
      · rintro ⟨h1, h2⟩; exact ⟨h2, h1⟩
    constructor
    · rintro ⟨p, hp, heq⟩
      rw [hmem p] at heq
      subst heq
      obtain ⟨x, y, hx, hy, hpred⟩ := mem_queryBulk.mp hp
      refine ⟨y, x, hy, hx, ?_⟩
      rcases hop with h | h <;> subst h
      · rw [predEval_contains_eval]
        rw [swapOp_contains, predEval_within_eval] at hpred
        exact hpred
      · rw [predEval_within_eval]
        rw [swapOp_within, predEval_contains_eval] at hpred
        exact hpred
    · rintro ⟨x, y, hx, hy, hpred⟩
      refine ⟨(b, a), mem_queryBulk.mpr ⟨y, x, hy, hx, ?_⟩, by rw [hmem]⟩
      rcases hop with h | h <;> subst h
      · rw [swapOp_contains, predEval_within_eval]
        rw [predEval_contains_eval] at hpred
        exact hpred
      · rw [swapOp_within, predEval_contains_eval]
        rw [predEval_within_eval] at hpred
        exact hpred
  · rw [if_neg hsw, sjoinPairs_ok]
    exact mem_queryBulk

/-! ### Claim theorems over the spatial join -/

/-- C3: when the swap heuristic flips the two sides, "contains" is
replaced by "within" and vice versa while "intersects" and "dwithin"
are left unchanged; consequently joining (A, B) under "within" and
(B, A) under "contains" report exactly the same correspondences up to
the left/right role swap. -/
theorem sjoin_swap_inverts_asymmetric_predicates {G : Type}
    (contains intersects : G → G → Bool) (bufferD : Int → G → G)
    (A B : Frame G) (how : String) (hhow : how ∈ allowedHows) (a b : Nat) :
    swapOp "contains" = "within" ∧ swapOp "within" = "contains" ∧
    swapOp "intersects" = "intersects" ∧ swapOp "dwithin" = "dwithin" ∧
    ((a, b) ∈ sjoinPairs (sjoinM contains intersects bufferD A B how "within" none) ↔
      (b, a) ∈ sjoinPairs (sjoinM contains intersects bufferD B A how "contains" none)) := by
  refine ⟨rfl, rfl, rfl, rfl, ?_⟩
  rw [sjoinM_pairs_mem contains intersects bufferD A B how "within" none
    (Or.inr rfl) hhow a b]
  rw [sjoinM_pairs_mem contains intersects bufferD B A how "contains" none
    (Or.inl rfl) hhow b a]
  constructor
  · rintro ⟨x, y, hx, hy, hp⟩
    rw [predEval_within_eval] at hp
    exact ⟨y, x, hy, hx, by rw [predEval_contains_eval]; exact hp⟩
  · rintro ⟨x, y, hx, hy, hp⟩
    rw [predEval_contains_eval] at hp
    exact ⟨y, x, hy, hx, by rw [predEval_within_eval]; exact hp⟩


/-- The caller's left frame after `sjoin`: every branch leaves it as
passed in, because `left = left.copy()` detaches it before any
mutation (and in the swapped case, mutations land on the caller's
right frame instead). -/
lemma sjoinM_finalLeft {G : Type} (c i : G → G → Bool) (buf : Int → G → G)
    (L R : Frame G) (how op : String) (d : Option Int) :
    (sjoinM c i buf L R how op d).finalLeft = L := by
  unfold sjoinM
  by_cases h1 : op ∉ allowedOps
  · rw [if_pos h1]
  rw [if_neg h1]
  by_cases h2 : how ∉ allowedHows
  · rw [if_pos h2]
  rw [if_neg h2]
  dsimp only
  by_cases hd : (if L.geom.length < R.geom.length then swapOp op else op) = "dwithin"
  · rw [if_pos hd]
    cases d
    · rfl
    · rfl
  · rw [if_neg hd]

/-- C9: a spatial join requested with op="dwithin" and no distance
fails with the `ValueError` before the STRtree index is built and
without touching the caller's frames; for every other predicate the
distance argument is ignored — the whole result is identical whatever
distance is supplied. -/
theorem sjoin_dwithin_requires_distance {G : Type}
    (contains intersects : G → G → Bool) (bufferD : Int → G → G)
    (L R : Frame G) (how : String) (hhow : how ∈ allowedHows)
    (op : String) (hop : op ≠ "dwithin") (d d' : Option Int) :
    sjoinM contains intersects bufferD L R how "dwithin" none =
      ⟨.error "'distance' is required for operation 'dwithin'", false, L, R⟩ ∧
    sjoinM contains intersects bufferD L R how op d =
      sjoinM contains intersects bufferD L R how op d' := by
  constructor
  · unfold sjoinM
    rw [if_neg (by decide : ¬("dwithin" : String) ∉ allowedOps),
      if_neg (not_not.mpr hhow)]
    by_cases hsw : L.geom.length < R.geom.length
    · simp [hsw, swapOp_dwithin]
    · simp [hsw]
  · by_cases hall : op ∈ allowedOps
    · by_cases hh : how ∈ allowedHows
      · rw [sjoinM_eq_of_valid contains intersects bufferD L R how op d hall hop hh,
          sjoinM_eq_of_valid contains intersects bufferD L R how op d' hall hop hh]
      · unfold sjoinM
        rw [if_neg (not_not.mpr hall), if_neg (not_not.mpr hall),
          if_pos hh, if_pos hh]
    · unfold sjoinM
      rw [if_pos hall, if_pos hall]

/-- C10: when the left input has at least as many rows as the right,
the frame passed as `left` comes back exactly as it went in — `sjoin`
copies it before attaching the temporary `join_id` column, so the
caller's object keeps its original column set after the join. -/
theorem sjoin_left_not_mutated {G : Type} (c i : G → G → Bool)
    (buf : Int → G → G) (L R : Frame G) (how op : String) (d : Option Int)
    (_hlen : R.geom.length ≤ L.geom.length) :
    (sjoinM c i buf L R how op d).finalLeft = L ∧
    ((sjoinM c i buf L R how op d).finalLeft).cols = L.cols := by
  refine ⟨sjoinM_finalLeft c i buf L R how op d, ?_⟩
  rw [sjoinM_finalLeft c i buf L R how op d]

/-- C6 (amended): an unknown predicate name passed to `sjoin` raises a
fatal `ValueError` before anything is built; but an unknown operation
name requested from the constructive dispatch does *not* fail — it
emits a warning and returns the `None` placeholder. -/
theorem unknown_operation_dispatch {α : Type} {G : Type}
    (pgOp : String → α → α) (arr : α) (operation : String)
    (hop : operation ∉ constructiveNames)
    (c i : G → G → Bool) (buf : Int → G → G) (L R : Frame G)
    (how jop : String) (hjop : jop ∉ allowedOps) (d : Option Int) :
    constructive pgOp arr operation = .warnedNone ∧
    (sjoinM c i buf L R how jop d).outcome =
      .error ("`op` \x22" ++ jop ++ "\x22 not supported") ∧
    (sjoinM c i buf L R how jop d).indexBuilt = false := by
  refine ⟨?_, ?_, ?_⟩
  · simp only [constructiveNames, List.mem_cons, List.not_mem_nil, or_false,
      not_or] at hop
    obtain ⟨h1, h2, h3, h4, h5, h6, h7, h8, h9, h10, h11, h12, h13, h14, h15,
      h16, h17⟩ := hop
    simp [constructive, h1, h2, h3, h4, h5, h6, h7, h8, h9, h10, h11, h12, h13,
      h14, h15, h16, h17]
  · unfold sjoinM
    rw [if_pos hjop]
  · unfold sjoinM
    rw [if_pos hjop]

/-- C6 counterexample: requesting the unknown constructive operation
"frobnicate" does not fail fatally — the dispatch warns and returns the
`None` placeholder. -/
theorem constructive_unknown_op_returns_none :
    constructive (fun _ (a : Nat) => a) 0 "frobnicate" =
      ConstructiveResult.warnedNone := by
  rfl

/-! ### GeometryView claim theorems -/

/-- A windowed two-element view used as concrete input. -/
def windowedPair : GeoSeries Nat :=
  { geometry := [0, 1], indexStart := 1, indexEnd := 2, lengthOriginal := 2,
    lengthUnfiltered := 1, activeFraction := 1/2, df := none }

/-- C4 counterexample: for the view over store `[0, 1]` with active
range `[1, 2)`, element access at index 0 returns `0` before
`trim()` + `window(0, length())` but `1` after — integer element
access reads the raw store and ignores the active range, so the
combination is observably *not* a no-op. -/
theorem trim_window_not_noop :
    windowedPair.getItemInt 0 = some 0 ∧
    (windowedPair.trim.setActiveRange 0 1).map (fun w => w.getItemInt 0) =
      some (some 1) ∧
    (some 1 : Option Nat) ≠ some 0 := by
  refine ⟨rfl, rfl, by decide⟩

/-- A full-range three-element view used as concrete input. -/
def fullTriple : GeoSeries Nat :=
  { geometry := [0, 1, 2], indexStart := 0, indexEnd := 3, lengthOriginal := 3,
    lengthUnfiltered := 3, activeFraction := 1, df := none }

/-- C5 counterexample: `set_active_range(3, 1)` on a three-row view
succeeds (no `RangeError`) and stores the inverted window
`start = 3 > end = 1` with negative unfiltered length, violating the
claimed invariant `0 ≤ start ≤ end ≤ store length` instead of
rejecting it. -/
theorem set_active_range_accepts_invalid :
    (fullTriple.setActiveRange 3 1).isSome = true ∧
    (fullTriple.setActiveRange 3 1).map
      (fun g => (g.indexStart, g.indexEnd, g.lengthUnfiltered)) =
      some (3, 1, -2) := by
  exact ⟨rfl, rfl⟩

/-- C5 (amended): `set_active_range` performs no validation: for every
view whose original length is non-zero (the zero case only dies of the
`ZeroDivisionError` in the active-fraction computation), *any* pair of
bounds — inverted or out of range — is accepted and stored verbatim,
so the view does not enforce `0 ≤ start ≤ end ≤ store length`. -/
theorem set_active_range_unvalidated {α : Type} (gs : GeoSeries α) (i1 i2 : Int)
    (h : gs.lengthOriginal ≠ 0) :
    ∃ g, gs.setActiveRange i1 i2 = some g ∧ g.indexStart = i1 ∧
      g.indexEnd = i2 ∧ g.lengthUnfiltered = i2 - i1 ∧
      g.geometry = gs.geometry ∧ g.df = gs.df := by
  unfold GeoSeries.setActiveRange
  rw [if_neg h]
  exact ⟨_, rfl, rfl, rfl, rfl, rfl, rfl⟩


/-- Element access on a view with no filtering host reads the raw
backing array. -/
lemma getItemInt_of_df_none {α : Type} (gs : GeoSeries α) (h : gs.df = none)
    (i : Nat) : gs.getItemInt i = gs.geometry[i]? := by
  unfold GeoSeries.getItemInt GeoSeries.activeGeometry
  rw [h]

/-- Element access on the trimmed backing array: position `i` of the
slice is position `index_start + i` of the source, for every in-window
index. -/
lemma trim_geometry_getElem {α : Type} (gs : GeoSeries α)
    (h0 : 0 ≤ gs.indexStart) (hse : gs.indexStart ≤ gs.indexEnd)
    (hend : gs.indexEnd ≤ (gs.geometry.length : Int)) (i : Nat)
    (hi : (i : Int) < gs.indexEnd - gs.indexStart) :
    (gs.trim.geometry)[i]? = gs.geometry[gs.indexStart.toNat + i]? := by
  unfold GeoSeries.trim
  by_cases hc : gs.indexStart = 0 ∧ (gs.geometry.length : Int) = gs.indexEnd
  · rw [if_pos hc]
    obtain ⟨h1, _⟩ := hc
    rw [h1]
    simp
  · rw [if_neg hc]
    unfold GeoSeries.pySlice
    dsimp only
    rw [if_neg (by omega : ¬ gs.indexStart < 0), if_neg (by omega : ¬ gs.indexEnd < 0)]
    have hmin1 : min gs.indexStart (gs.geometry.length : Int) = gs.indexStart := by
      omega
    have hmin2 : min gs.indexEnd (gs.geometry.length : Int) = gs.indexEnd := by
      omega
    rw [hmin1, hmin2, List.getElem?_take, if_pos (by omega), List.getElem?_drop]

/-- Fields of the view produced by a successful `set_active_range`:
the backing array and df reference are untouched; only the range
bookkeeping changes. -/
lemma setActiveRange_fields {α : Type} (gs : GeoSeries α) (i1 i2 : Int)
    (w : GeoSeries α) (h : gs.setActiveRange i1 i2 = some w) :
    w.geometry = gs.geometry ∧ w.df = gs.df ∧ w.indexStart = i1 ∧
      w.indexEnd = i2 := by
  unfold GeoSeries.setActiveRange at h
  by_cases hz : gs.lengthOriginal = 0
  · rw [if_pos hz] at h
    cases h
  · rw [if_neg hz] at h
    injection h with h
    subst h
    exact ⟨rfl, rfl, rfl, rfl⟩

/-- C4 (amended): `trim()` resets the active range to cover the new
store (start `0`, end `length`, fraction `1`) but keeps the `_df`
reference, so a host filter is *not* cleared by `trim`.  For every
unfiltered view with a consistent window, `trim()` followed by
`window(0, length())` yields a view whose element access at `i`
returns the *source* element at `index_start + i`; since element
access ignores the active range, this matches access on the original
view for every in-window index exactly when the view's range already
started at `0` — only then is the combination observationally a
no-op. -/
theorem trim_window_access {α : Type} (gs : GeoSeries α)
    (hunf : gs.df = none)
    (h0 : 0 ≤ gs.indexStart) (hse : gs.indexStart ≤ gs.indexEnd)
    (hend : gs.indexEnd ≤ (gs.geometry.length : Int))
    (hlu : gs.lengthUnfiltered = gs.indexEnd - gs.indexStart)
    (hpos : 0 < gs.lengthUnfiltered) :
    (∀ h : GeoSeries α, h.trim.df = h.df) ∧
    gs.trim.indexStart = 0 ∧ gs.trim.indexEnd = gs.lengthUnfiltered ∧
    gs.trim.activeFraction = 1 ∧
    ∃ w, gs.trim.setActiveRange 0 gs.trim.lengthUnfiltered = some w ∧
      (∀ i : Nat, (i : Int) < gs.lengthUnfiltered →
        w.getItemInt i = gs.geometry[gs.indexStart.toNat + i]?) ∧
      (gs.indexStart = 0 → ∀ i : Nat, (i : Int) < gs.lengthUnfiltered →
        w.getItemInt i = gs.getItemInt i) := by
  have hne : gs.lengthUnfiltered ≠ 0 := by omega
  have hne' : gs.trim.lengthOriginal ≠ 0 := hne
  have hgetw : ∀ i : Nat, (i : Int) < gs.lengthUnfiltered →
      (gs.trim.geometry)[i]? = gs.geometry[gs.indexStart.toNat + i]? := by
    intro i hi
    exact trim_geometry_getElem gs h0 hse hend i (by omega)
  refine ⟨fun h => rfl, rfl, rfl, rfl, ?_⟩
  have hex : ∃ w, gs.trim.setActiveRange 0 gs.trim.lengthUnfiltered = some w := by
    unfold GeoSeries.setActiveRange
    rw [if_neg hne']
    exact ⟨_, rfl⟩
  obtain ⟨w, hw⟩ := hex
  obtain ⟨hgeom, hdf, _, _⟩ := setActiveRange_fields _ _ _ _ hw
  have hwdf : w.df = none := by
    rw [hdf]
    exact hunf
  refine ⟨w, hw, ?_, ?_⟩
  · intro i hi
    rw [getItemInt_of_df_none w hwdf, hgeom]
    exact hgetw i hi
  · intro hz i hi
    rw [getItemInt_of_df_none w hwdf, hgeom, getItemInt_of_df_none gs hunf,
      hgetw i hi, hz]
    simp


/-! ### Witnesses: the hypothesis-bearing theorems at concrete inputs -/

/-- Witness for C2's theorem: two chunks each, completion order
`[1, 0]` everywhere. -/
theorem parallel_collection_determinism_witness :
    multithread (fun c => c.length) 0 [[0], [1, 2]] [1, 0] =
      [[0], [1, 2]].map (fun c => c.length) ∧
    totalBoundsParallel [[⟨0, 0, 1, 1⟩], [⟨2, 2, 3, 3⟩]] [1, 0] =
      totalBoundsSequential [[⟨0, 0, 1, 1⟩], [⟨2, 2, 3, 3⟩]] ∧
    convexHullAllParallel (fun s => s) [[{1, 2}], [({3} : Finset Nat)]] [1, 0] =
      convexHullAllSequential (fun s => s) [[{1, 2}], [({3} : Finset Nat)]] :=
  parallel_collection_determinism (fun c => c.length) 0 [[0], [1, 2]] [1, 0]
    (by decide) [[⟨0, 0, 1, 1⟩], [⟨2, 2, 3, 3⟩]] [1, 0] (by decide)
    (fun s => s) [[{1, 2}], [({3} : Finset Nat)]] [1, 0] (by decide)

/-- Witness for C3's theorem: singleton frames, `how = "left"`. -/
theorem sjoin_swap_inverts_witness :
    swapOp "contains" = "within" ∧ swapOp "within" = "contains" ∧
    swapOp "intersects" = "intersects" ∧ swapOp "dwithin" = "dwithin" ∧
    (((0, 0) ∈ sjoinPairs (sjoinM (fun a b => a ≤ b) (fun _ _ => true)
        (fun _ g => g) ⟨[7], []⟩ ⟨[9], []⟩ "left" "within" none)) ↔
      ((0, 0) ∈ sjoinPairs (sjoinM (fun a b => a ≤ b) (fun _ _ => true)
        (fun _ g => g) ⟨[9], []⟩ ⟨[7], []⟩ "left" "contains" none))) :=
  sjoin_swap_inverts_asymmetric_predicates (fun a b => a ≤ b) (fun _ _ => true)
    (fun _ g => g) ⟨[7], []⟩ ⟨[9], []⟩ "left" (by decide) 0 0

/-- Witness for C9's theorem: `how = "left"`, `op = "intersects"`,
distances `none` and `some 5`. -/
theorem sjoin_dwithin_requires_distance_witness :
    sjoinM (fun (a b : Nat) => a ≤ b) (fun _ _ => true) (fun _ g => g)
      ⟨[7], []⟩ ⟨[9], []⟩ "left" "dwithin" none =
      ⟨.error "'distance' is required for operation 'dwithin'", false,
        ⟨[7], []⟩, ⟨[9], []⟩⟩ ∧
    sjoinM (fun (a b : Nat) => a ≤ b) (fun _ _ => true) (fun _ g => g)
      ⟨[7], []⟩ ⟨[9], []⟩ "left" "intersects" none =
    sjoinM (fun (a b : Nat) => a ≤ b) (fun _ _ => true) (fun _ g => g)
      ⟨[7], []⟩ ⟨[9], []⟩ "left" "intersects" (some 5) :=
  sjoin_dwithin_requires_distance (fun a b => a ≤ b) (fun _ _ => true)
    (fun _ g => g) ⟨[7], []⟩ ⟨[9], []⟩ "left" (by decide) "intersects"
    (by decide) none (some 5)

/-- Witness for C10's theorem: equal-sized frames, the left carrying a
column. -/
theorem sjoin_left_not_mutated_witness :
    (sjoinM (fun (a b : Nat) => a ≤ b) (fun _ _ => true) (fun _ g => g)
      ⟨[1], ["a"]⟩ ⟨[2], []⟩ "left" "within" none).finalLeft =
      (⟨[1], ["a"]⟩ : Frame Nat) ∧
    ((sjoinM (fun (a b : Nat) => a ≤ b) (fun _ _ => true) (fun _ g => g)
      ⟨[1], ["a"]⟩ ⟨[2], []⟩ "left" "within" none).finalLeft).cols = ["a"] :=
  sjoin_left_not_mutated (fun a b => a ≤ b) (fun _ _ => true) (fun _ g => g)
    ⟨[1], ["a"]⟩ ⟨[2], []⟩ "left" "within" none (by decide)

/-- Witness for C6's theorem: the unknown names "frobnicate" and
"touches". -/
theorem unknown_operation_dispatch_witness :
    constructive (fun _ (a : Nat) => a) 0 "frobnicate" = .warnedNone ∧
    (sjoinM (fun (a b : Nat) => a ≤ b) (fun _ _ => true) (fun _ g => g)
      ⟨[1], []⟩ ⟨[2], []⟩ "left" "touches" none).outcome =
      .error ("`op` \x22" ++ "touches" ++ "\x22 not supported") ∧
    (sjoinM (fun (a b : Nat) => a ≤ b) (fun _ _ => true) (fun _ g => g)
      ⟨[1], []⟩ ⟨[2], []⟩ "left" "touches" none).indexBuilt = false :=
  unknown_operation_dispatch (fun _ (a : Nat) => a) 0 "frobnicate" (by decide)
    (fun a b => a ≤ b) (fun _ _ => true) (fun _ g => g) ⟨[1], []⟩ ⟨[2], []⟩
    "left" "touches" (by decide) none

/-- Witness for C5's theorem: the three-row view, inverted bounds
`(3, 1)`. -/
theorem set_active_range_unvalidated_witness :
    ∃ g, fullTriple.setActiveRange 3 1 = some g ∧ g.indexStart = 3 ∧
      g.indexEnd = 1 ∧ g.lengthUnfiltered = 1 - 3 ∧
      g.geometry = fullTriple.geometry ∧ g.df = fullTriple.df :=
  set_active_range_unvalidated fullTriple 3 1 (by decide)

/-- Witness for C4's theorem: the windowed two-element view. -/
theorem trim_window_access_witness :
    (∀ h : GeoSeries Nat, h.trim.df = h.df) ∧
    windowedPair.trim.indexStart = 0 ∧
    windowedPair.trim.indexEnd = windowedPair.lengthUnfiltered ∧
    windowedPair.trim.activeFraction = 1 ∧
    ∃ w, windowedPair.trim.setActiveRange 0 windowedPair.trim.lengthUnfiltered =
        some w ∧
      (∀ i : Nat, (i : Int) < windowedPair.lengthUnfiltered →
        w.getItemInt i = windowedPair.geometry[windowedPair.indexStart.toNat + i]?) ∧
      (windowedPair.indexStart = 0 → ∀ i : Nat,
        (i : Int) < windowedPair.lengthUnfiltered →
        w.getItemInt i = windowedPair.getItemInt i) :=
  trim_window_access windowedPair rfl (by decide) (by decide) (by decide)
    (by decide) (by decide)

end Geovaex
